import Mathlib

/-!
Shallow embedding of `src/src/ftrace_reader/ftrace_config_muxer.cc`
(the ftrace configuration multiplexer of android_external_perfetto).

The muxer owns a table of active configs, a shadow of the kernel state it
has imposed (`CurrentState`), and a monotone id counter.  All calls into
the external tracing control surface (`FtraceProcfs`), and the atrace
helper subprocess, are modelled as an explicit list of `Effect`s emitted
by each operation; the behaviour of the external world during one call
(the booleans those calls return, the current clock, the available
clocks) is an `Env` snapshot supplied per call.  The event catalog
(`ProtoTranslationTable::GetEventByName`) is fixed for the muxer's
lifetime, as in the C++ constructor, and lives in the `Muxer` record.

The C++ locals of `RequestConfig` / `RemoveConfig` (`actual`, `events`,
`expected_ftrace_events`, `events_to_disable`) are modelled as named
top-level functions of the entry state, so each is written once and the
branching structure of the source stays visible.

`PERFETTO_DCHECK` / `PERFETTO_CHECK` assertions are runtime no-ops in
release builds and never alter control flow; where a claim is about one
of them it is modelled as an explicit boolean condition
(`disableAtraceDcheckHolds`, `removeConfigInvokesDisableAtrace`).  The
Android build configuration is assumed, so `EnableAtraceOnAndroid` /
`DisableAtraceOnAndroid` call through to `EnableAtrace` /
`DisableAtrace`; their bodies (set/clear `atrace_on`, run the helper
with the start/stop argv) are inlined at their unique call sites.
-/

namespace Perfetto

/-- One record of the event catalog: `Event` with its ftrace `group` and
`name` (proto_translation_table.h). -/
structure Event where
  group : String
  name : String
deriving DecidableEq, Repr

/-- Modelled from the spec: `FtraceConfig` (the proto, not under `src/`):
`event_names` (set of user-visible event names), `buffer_size_kb`
(0 means default), `atrace_categories` and `atrace_apps` (ordered). -/
structure FtraceConfig where
  event_names : List String
  buffer_size_kb : Nat
  atrace_categories : List String
  atrace_apps : List String
deriving DecidableEq, Repr

/-- Modelled from the spec: `RequiresAtrace` (declared outside `src/`):
true iff `atrace_categories` or `atrace_apps` is non-empty. -/
def RequiresAtrace (request : FtraceConfig) : Bool :=
  !request.atrace_categories.isEmpty || !request.atrace_apps.isEmpty

/-- One call into the tracing control surface or the atrace helper.
`enableEvent`/`disableEvent` carry the boolean the call returned. -/
inductive Effect where
  | enableEvent : String → String → Bool → Effect
  | disableEvent : String → String → Bool → Effect
  | enableTracing : Effect
  | disableTracing : Effect
  | setClock : String → Effect
  | setCpuBufferSizeInPages : Nat → Effect
  | disableAllEvents : Effect
  | clearTrace : Effect
  | runAtrace : List String → Effect
deriving DecidableEq, Repr

/-- Snapshot of the external world's behaviour during one muxer call:
what `IsTracingEnabled` returns, what `EnableEvent`/`DisableEvent`
return for each (group, name), the current clock and the set of
available clocks. -/
structure Env where
  is_tracing_enabled : Bool
  enable_event : String → String → Bool
  disable_event : String → String → Bool
  get_clock : String
  available_clocks : Finset String

/-- `FtraceState` (`current_state_`): the muxer's authoritative shadow of
what it imposed on the kernel. -/
structure CurrentState where
  ftrace_events : Finset String
  tracing_on : Bool
  atrace_on : Bool
  cpu_buffer_size_pages : Nat
deriving DecidableEq

/-- The muxer: fixed event catalog, shadow state, config table
(`std::map<FtraceConfigId, FtraceConfig> configs_`, represented as an
association list; its order is only ever used to build sets, so list
order is irrelevant), and the id counter `last_id_`. -/
structure Muxer where
  table : String → Option Event
  current_state : CurrentState
  configs : List (Nat × FtraceConfig)
  last_id : Nat

/-- The freshly constructed muxer: value-initialized `current_state_`,
empty `configs_`, id counter at 0 (first issued id is 1). -/
def initMuxer (table : String → Option Event) : Muxer :=
  { table := table
    current_state := { ftrace_events := ∅, tracing_on := false,
                       atrace_on := false, cpu_buffer_size_pages := 0 }
    configs := []
    last_id := 0 }

/-- `kClocks`: trace clocks in preference order. -/
def kClocks : List String := ["boot", "global", "local"]

/-- `kDefaultPerCpuBufferSizeKb = 512`. -/
def kDefaultPerCpuBufferSizeKb : Nat := 512

/-- `kMaxPerCpuBufferSizeKb = 2 * 1024`. -/
def kMaxPerCpuBufferSizeKb : Nat := 2 * 1024

/-- Modelled from the spec: `base::kPageSize` (perfetto/base/utils.h, not
under `src/`): the host page size in bytes, 4096. -/
def kPageSize : Nat := 4096

/-- `ComputeCpuBufferSizeInPages` (ftrace_config_muxer.cc:87-98). -/
def ComputeCpuBufferSizeInPages (requested_buffer_size_kb : Nat) : Nat :=
  let r1 := if requested_buffer_size_kb = 0 then kDefaultPerCpuBufferSizeKb
            else requested_buffer_size_kb
  let r2 := if r1 > kMaxPerCpuBufferSizeKb then kDefaultPerCpuBufferSizeKb
            else r1
  let pages := r2 / (kPageSize / 1024)
  if pages = 0 then 1 else pages

/-- `GetFtraceEvents` (ftrace_config_muxer.cc:74-81): the request's
event names, plus `"print"` iff the request requires atrace. -/
def GetFtraceEvents (request : FtraceConfig) : Finset String :=
  let events := request.event_names.foldl (fun s n => insert n s) ∅
  if RequiresAtrace request then insert "print" events else events

/-- The argv built by `EnableAtrace` (ftrace_config_muxer.cc:233-242):
`["atrace", "--async_start", categories...]`, then `["-a", apps...]`
iff `atrace_apps` is non-empty. -/
def atraceStartArgs (request : FtraceConfig) : List String :=
  let args := ["atrace", "--async_start"] ++ request.atrace_categories
  if request.atrace_apps.isEmpty then args
  else args ++ ["-a"] ++ request.atrace_apps

/-- The boolean condition asserted by
`PERFETTO_DCHECK(!current_state_.atrace_on)` at entry to `DisableAtrace`
(ftrace_config_muxer.cc:257), as a function of the state at entry.
`RemoveConfig` does not touch `atrace_on` between its own entry and the
`DisableAtrace` call, so the entry state's `atrace_on` equals the
`RemoveConfig` pre-state's. -/
def disableAtraceDcheckHolds (s : CurrentState) : Bool :=
  !s.atrace_on

/-- The loop body of `SetupClock` (ftrace_config_muxer.cc:203-211):
scan the preference list; skip unavailable clocks; at the first
available one, write it unless it is already current, and stop. -/
def setupClockLoop (current_clock : String) (clocks : Finset String) :
    List String → List Effect
  | [] => []
  | clock :: rest =>
    if clock ∉ clocks then setupClockLoop current_clock clocks rest
    else if current_clock = clock then []
    else [Effect.setClock clock]

/-- `SetupClock` (ftrace_config_muxer.cc:199-212): reads the current
clock and the available clocks, then runs the preference scan.  Pure
apart from the possible `SetClock` write, so it returns only effects. -/
def SetupClock (env : Env) : List Effect :=
  setupClockLoop env.get_clock env.available_clocks kClocks

/-- The event loop of `RequestConfig` (ftrace_config_muxer.cc:129-144),
threading the live `current_state_.ftrace_events` set and building the
accepted event-name list (`actual`) and the control-surface calls in
iteration order.  Unknown events are skipped; events already enabled or
in the virtual `"ftrace"` group are accepted without a kernel call;
otherwise `EnableEvent` is called and, on success, the event is added
to the state and accepted. -/
def eventLoop (table : String → Option Event) (env : Env)
    (fe : Finset String) :
    List String → Finset String × List String × List Effect
  | [] => (fe, [], [])
  | name :: rest =>
    match table name with
    | none => eventLoop table env fe rest
    | some event =>
      if name ∈ fe ∨ event.group = "ftrace" then
        let r := eventLoop table env fe rest
        (r.1, name :: r.2.1, r.2.2)
      else if env.enable_event event.group event.name then
        let r := eventLoop table env (insert name fe) rest
        (r.1, name :: r.2.1,
         Effect.enableEvent event.group event.name true :: r.2.2)
      else
        let r := eventLoop table env fe rest
        (r.1, r.2.1, Effect.enableEvent event.group event.name false :: r.2.2)

/-- The iteration order of `std::set<std::string>`: lexicographic
string comparison, modelled on the underlying character lists (the
code-point order; `String.ltb` itself is not kernel-computable). -/
def strLe (a b : String) : Prop := a.data ≤ b.data

instance : DecidableRel strLe :=
  fun a b => inferInstanceAs (Decidable (a.data ≤ b.data))

instance : IsTrans String strLe :=
  ⟨fun _ _ _ h1 h2 => le_trans h1 h2⟩

instance : IsAntisymm String strLe :=
  ⟨fun a b h1 h2 => by
    cases a; cases b
    exact congrArg String.mk (le_antisymm h1 h2)⟩

instance : IsTotal String strLe :=
  ⟨fun a b => le_total a.data b.data⟩

/-- List a finite set of strings in ascending `strLe` order (the
iteration order of the corresponding `std::set<std::string>`). -/
def finsetSort (s : Finset String) : List String :=
  Quot.liftOn s.val (fun l => l.insertionSort strLe) (fun l1 l2 h =>
    List.eq_of_perm_of_sorted
      (((l1.perm_insertionSort strLe).trans h).trans
        (l2.perm_insertionSort strLe).symm)
      (List.sorted_insertionSort strLe l1)
      (List.sorted_insertionSort strLe l2))

theorem mem_finsetSort (s : Finset String) (a : String) :
    a ∈ finsetSort s ↔ a ∈ s := by
  cases s with
  | mk val nodup =>
    induction val using Quot.inductionOn with
    | h l => simp [finsetSort, List.mem_insertionSort]

theorem finsetSort_toFinset (s : Finset String) :
    (finsetSort s).toFinset = s := by
  ext a
  rw [List.mem_toFinset, mem_finsetSort]

/-- The `std::set<std::string> events` local of `RequestConfig`
(line 127), iterated in the set's sorted order. -/
def requestEventList (request : FtraceConfig) : List String :=
  finsetSort (GetFtraceEvents request)

/-- The run of `RequestConfig`'s event loop against the entry state.
(`EnableAtraceOnAndroid`/`SetupClock`/`SetupBufferSize` do not touch
`current_state_.ftrace_events`, so on both branches the loop starts
from the entry state's event set.) -/
def requestLoop (env : Env) (m : Muxer) (request : FtraceConfig) :
    Finset String × List String × List Effect :=
  eventLoop m.table env m.current_state.ftrace_events (requestEventList request)

/-- The `actual` config stored by `RequestConfig` (line 106, filled at
lines 137/142): only the accepted event names; the other proto fields
keep their defaults. -/
def acceptedConfig (names : List String) : FtraceConfig :=
  { event_names := names, buffer_size_kb := 0,
    atrace_categories := [], atrace_apps := [] }

/-- The accepting cold-start path of `RequestConfig` (lines 116-120,
127-154, with `configs_` empty and tracing off): `EnableAtraceOnAndroid`
iff the request requires atrace (sets `atrace_on`, runs the start argv —
`EnableAtrace`, lines 228-246, inlined at its unique call site),
`SetupClock`, `SetupBufferSize` (the `SetCpuBufferSizeInPages` write and
the `cpu_buffer_size_pages` shadow update, lines 214-218), the event
loop, then `EnableTracing` with `tracing_on := true`, and finally the
fresh id `last_id_ + 1` with the accepted config stored under it. -/
def coldResult (env : Env) (m : Muxer) (request : FtraceConfig) :
    Nat × Muxer × List Effect :=
  (m.last_id + 1,
   { m with
     current_state :=
       { ftrace_events := (requestLoop env m request).1
         tracing_on := true
         atrace_on :=
           if RequiresAtrace request then true else m.current_state.atrace_on
         cpu_buffer_size_pages :=
           ComputeCpuBufferSizeInPages request.buffer_size_kb }
     configs :=
       m.configs ++ [(m.last_id + 1, acceptedConfig (requestLoop env m request).2.1)]
     last_id := m.last_id + 1 },
   (if RequiresAtrace request then [Effect.runAtrace (atraceStartArgs request)]
    else [])
     ++ SetupClock env
     ++ [Effect.setCpuBufferSizeInPages
           (ComputeCpuBufferSizeInPages request.buffer_size_kb)]
     ++ (requestLoop env m request).2.2
     ++ [Effect.enableTracing])

/-- The accepting warm path of `RequestConfig` (lines 127-154 with
`configs_` non-empty): only the event loop runs, then the fresh id is
allocated and the accepted config stored. -/
def warmResult (env : Env) (m : Muxer) (request : FtraceConfig) :
    Nat × Muxer × List Effect :=
  (m.last_id + 1,
   { m with
     current_state :=
       { m.current_state with ftrace_events := (requestLoop env m request).1 }
     configs :=
       m.configs ++ [(m.last_id + 1, acceptedConfig (requestLoop env m request).2.1)]
     last_id := m.last_id + 1 },
   (requestLoop env m request).2.2)

/-- `FtraceConfigMuxer::RequestConfig` (ftrace_config_muxer.cc:105-155).
Returns the issued id (0 = rejection), the new muxer, and the
control-surface calls in order.  Cold branch (`configs_` empty): reject
if tracing is already on (foreign owner), else `coldResult`.  Warm
branch: reject if tracing was turned off externally, else
`warmResult`.  Rejection mutates nothing and issues no calls. -/
def RequestConfig (env : Env) (m : Muxer) (request : FtraceConfig) :
    Nat × Muxer × List Effect :=
  if m.configs.isEmpty then
    if env.is_tracing_enabled then (0, m, [])
    else coldResult env m request
  else if !env.is_tracing_enabled then (0, m, [])
  else warmResult env m request

/-- Union of the stored (accepted) event names across a config table:
the `expected_ftrace_events` computation of `RemoveConfig`
(ftrace_config_muxer.cc:161-166). -/
def acceptedUnion (configs : List (Nat × FtraceConfig)) : Finset String :=
  configs.foldl (fun s p => s ∪ p.2.event_names.toFinset) ∅

/-- The disable loop of `RemoveConfig` (ftrace_config_muxer.cc:171-177),
threading the live `ftrace_events` set: unknown events are skipped;
otherwise `DisableEvent` is called and, on success, the event is erased
from the state. -/
def disableLoop (table : String → Option Event) (env : Env)
    (fe : Finset String) : List String → Finset String × List Effect
  | [] => (fe, [])
  | name :: rest =>
    match table name with
    | none => disableLoop table env fe rest
    | some event =>
      if env.disable_event event.group event.name then
        let r := disableLoop table env (fe.erase name) rest
        (r.1, Effect.disableEvent event.group event.name true :: r.2)
      else
        let r := disableLoop table env fe rest
        (r.1, Effect.disableEvent event.group event.name false :: r.2)

/-- The config table after `configs_.erase(id)` (line 158). -/
def configsAfterErase (m : Muxer) (id : Nat) : List (Nat × FtraceConfig) :=
  m.configs.filter (fun p => p.1 ≠ id)

/-- The `events_to_disable` vector (lines 168-169): the sorted
difference between the state's events and the union still expected by
the remaining configs (`difference` walks two sorted `std::set`s, so
the result is sorted). -/
def removeToDisable (m : Muxer) (id : Nat) : List String :=
  finsetSort (m.current_state.ftrace_events \ acceptedUnion (configsAfterErase m id))

/-- The run of `RemoveConfig`'s disable loop against the entry state. -/
def removeLoop (env : Env) (m : Muxer) (id : Nat) : Finset String × List Effect :=
  disableLoop m.table env m.current_state.ftrace_events (removeToDisable m id)

/-- The teardown writes of `RemoveConfig` (lines 181-184), in source
order. -/
def teardownEffects : List Effect :=
  [Effect.disableTracing, Effect.setCpuBufferSizeInPages 0,
   Effect.disableAllEvents, Effect.clearTrace]

/-- The last-config path of `RemoveConfig` with `atrace_on` set
(lines 179-188): after the disable loop, the teardown writes, clearing
`tracing_on`, and `DisableAtraceOnAndroid` (`DisableAtrace`,
lines 256-264, inlined at its unique call site: the stop argv plus
`atrace_on := false`).  Note `current_state_.cpu_buffer_size_pages`
is not reset: only the kernel-side zero write happens. -/
def removeTeardownAtrace (env : Env) (m : Muxer) (id : Nat) :
    Bool × Muxer × List Effect :=
  (true,
   { m with
     current_state :=
       { ftrace_events := (removeLoop env m id).1
         tracing_on := false
         atrace_on := false
         cpu_buffer_size_pages := m.current_state.cpu_buffer_size_pages }
     configs := configsAfterErase m id },
   (removeLoop env m id).2 ++ teardownEffects
     ++ [Effect.runAtrace ["atrace", "--async_stop"]])

/-- The last-config path of `RemoveConfig` with `atrace_on` clear
(lines 179-188): the disable loop, the teardown writes, and clearing
`tracing_on`; atrace not touched.  `cpu_buffer_size_pages` is again
not reset. -/
def removeTeardownPlain (env : Env) (m : Muxer) (id : Nat) :
    Bool × Muxer × List Effect :=
  (true,
   { m with
     current_state :=
       { ftrace_events := (removeLoop env m id).1
         tracing_on := false
         atrace_on := m.current_state.atrace_on
         cpu_buffer_size_pages := m.current_state.cpu_buffer_size_pages }
     configs := configsAfterErase m id },
   (removeLoop env m id).2 ++ teardownEffects)

/-- The partial-removal path of `RemoveConfig` (configs remain): only
the disable loop runs. -/
def removePartial (env : Env) (m : Muxer) (id : Nat) :
    Bool × Muxer × List Effect :=
  (true,
   { m with
     current_state :=
       { m.current_state with ftrace_events := (removeLoop env m id).1 }
     configs := configsAfterErase m id },
   (removeLoop env m id).2)

/-- `FtraceConfigMuxer::RemoveConfig` (ftrace_config_muxer.cc:157-191).
Returns whether a config was removed, the new muxer, and the
control-surface calls in order.  Id 0 or an unknown id: `false`, no
mutation, no calls.  Otherwise erase the config and run the matching
path: teardown (with or without the atrace stop) when the table became
empty, else just the disable loop. -/
def RemoveConfig (env : Env) (m : Muxer) (id : Nat) :
    Bool × Muxer × List Effect :=
  if id = 0 ∨ (m.configs.lookup id).isNone then (false, m, [])
  else if (configsAfterErase m id).isEmpty then
    if m.current_state.atrace_on then removeTeardownAtrace env m id
    else removeTeardownPlain env m id
  else removePartial env m id

/-- Whether `RemoveConfig id` invokes `DisableAtrace`: the erase
succeeded, the table became empty, and `atrace_on` held (the guard at
ftrace_config_muxer.cc:186). -/
def removeConfigInvokesDisableAtrace (m : Muxer) (id : Nat) : Bool :=
  !(decide (id = 0 ∨ (m.configs.lookup id).isNone))
    && (configsAfterErase m id).isEmpty
    && m.current_state.atrace_on

/-- `FtraceConfigMuxer::GetConfig` (ftrace_config_muxer.cc:193-197). -/
def GetConfig (m : Muxer) (id : Nat) : Option FtraceConfig :=
  m.configs.lookup id

/-- One external operation on the muxer, together with the snapshot of
the external world's behaviour during that call. -/
inductive Cmd where
  | request : Env → FtraceConfig → Cmd
  | remove : Env → Nat → Cmd

/-- Run one command: new muxer, its effects, and the issued id if the
command was an accepted `RequestConfig`. -/
def stepCmd (m : Muxer) : Cmd → Muxer × List Effect × Option Nat
  | Cmd.request env req =>
    let r := RequestConfig env m req
    (r.2.1, r.2.2, if r.1 = 0 then none else some r.1)
  | Cmd.remove env id =>
    let r := RemoveConfig env m id
    (r.2.1, r.2.2, none)

/-- Run a finite interleaving of muxer operations: final muxer, the
concatenated effect history, and the list of successfully issued ids in
order. -/
def runTrace (m : Muxer) : List Cmd → Muxer × List Effect × List Nat
  | [] => (m, [], [])
  | c :: cs =>
    let s := stepCmd m c
    let r := runTrace s.1 cs
    (r.1, s.2.1 ++ r.2.1, s.2.2.toList ++ r.2.2)

/-! ### Concrete fixtures for witnesses and counterexamples -/

/-- A well-behaved control-surface snapshot: tracing off, every
`EnableEvent`/`DisableEvent` succeeds, current clock `"local"`,
clocks `"boot"` and `"local"` available. -/
def env0 : Env :=
  { is_tracing_enabled := false
    enable_event := fun _ _ => true
    disable_event := fun _ _ => true
    get_clock := "local"
    available_clocks := {"boot", "local"} }

/-- Like `env0` but with tracing reported on (as seen after the muxer
itself enabled tracing, or by a cold start facing a foreign owner). -/
def env1 : Env := { env0 with is_tracing_enabled := true }

/-- A small event catalog: `sched_switch` in group `sched`, `print` in
the virtual group `ftrace`. -/
def table0 : String → Option Event := fun n =>
  if n = "sched_switch" then some { group := "sched", name := "sched_switch" }
  else if n = "print" then some { group := "ftrace", name := "print" }
  else none

/-- A request for one ordinary event with default buffer size. -/
def cfg0 : FtraceConfig :=
  { event_names := ["sched_switch"], buffer_size_kb := 0,
    atrace_categories := [], atrace_apps := [] }

/-- A request naming only the `"ftrace"`-group event `print`. -/
def cfgPrint : FtraceConfig :=
  { event_names := ["print"], buffer_size_kb := 0,
    atrace_categories := [], atrace_apps := [] }

/-- A request that requires atrace: one category and one app. -/
def cfgAtrace : FtraceConfig :=
  { event_names := [], buffer_size_kb := 0,
    atrace_categories := ["gfx"], atrace_apps := ["com.app"] }

/-- Issue one config and release it: a balanced interleaving. -/
def trace2 : List Cmd := [Cmd.request env0 cfg0, Cmd.remove env1 1]

/-- The muxer after one accepted request for `cfg0`. -/
def warmMuxer : Muxer :=
  (runTrace (initMuxer table0) [Cmd.request env0 cfg0]).1

/-- The muxer after one accepted atrace request (`atrace_on` is true). -/
def atraceMuxer : Muxer :=
  (runTrace (initMuxer table0) [Cmd.request env0 cfgAtrace]).1

/-! ### Branch equations for the two entry points -/

theorem removeConfig_eq_notFound (env : Env) (m : Muxer) (id : Nat)
    (hc : id = 0 ∨ (m.configs.lookup id).isNone) :
    RemoveConfig env m id = (false, m, []) := by
  unfold RemoveConfig; rw [if_pos hc]

theorem removeConfig_eq_teardownAtrace (env : Env) (m : Muxer) (id : Nat)
    (hc : ¬(id = 0 ∨ (m.configs.lookup id).isNone))
    (he : (configsAfterErase m id).isEmpty = true)
    (ha : m.current_state.atrace_on = true) :
    RemoveConfig env m id = removeTeardownAtrace env m id := by
  unfold RemoveConfig; rw [if_neg hc, if_pos he, if_pos ha]

theorem removeConfig_eq_teardownPlain (env : Env) (m : Muxer) (id : Nat)
    (hc : ¬(id = 0 ∨ (m.configs.lookup id).isNone))
    (he : (configsAfterErase m id).isEmpty = true)
    (ha : m.current_state.atrace_on = false) :
    RemoveConfig env m id = removeTeardownPlain env m id := by
  unfold RemoveConfig; rw [if_neg hc, if_pos he, if_neg (by simp [ha])]

theorem removeConfig_eq_remaining (env : Env) (m : Muxer) (id : Nat)
    (hc : ¬(id = 0 ∨ (m.configs.lookup id).isNone))
    (he : (configsAfterErase m id).isEmpty = false) :
    RemoveConfig env m id = removePartial env m id := by
  unfold RemoveConfig; rw [if_neg hc, if_neg (by simp [he])]

theorem requestConfig_eq_rejectCold (env : Env) (m : Muxer) (request : FtraceConfig)
    (h1 : m.configs.isEmpty = true) (h2 : env.is_tracing_enabled = true) :
    RequestConfig env m request = (0, m, []) := by
  unfold RequestConfig; rw [if_pos h1, if_pos h2]

theorem requestConfig_eq_cold (env : Env) (m : Muxer) (request : FtraceConfig)
    (h1 : m.configs.isEmpty = true) (h2 : env.is_tracing_enabled = false) :
    RequestConfig env m request = coldResult env m request := by
  unfold RequestConfig; rw [if_pos h1, if_neg (by simp [h2])]

theorem requestConfig_eq_rejectWarm (env : Env) (m : Muxer) (request : FtraceConfig)
    (h1 : m.configs.isEmpty = false) (h2 : env.is_tracing_enabled = false) :
    RequestConfig env m request = (0, m, []) := by
  unfold RequestConfig; rw [if_neg (by simp [h1]), if_pos (by simp [h2])]

theorem requestConfig_eq_warm (env : Env) (m : Muxer) (request : FtraceConfig)
    (h1 : m.configs.isEmpty = false) (h2 : env.is_tracing_enabled = true) :
    RequestConfig env m request = warmResult env m request := by
  unfold RequestConfig; rw [if_neg (by simp [h1]), if_neg (by simp [h2])]

/-! ### Small facts about the operations -/

theorem removeConfig_last_id (env : Env) (m : Muxer) (id : Nat) :
    (RemoveConfig env m id).2.1.last_id = m.last_id := by
  by_cases hc : id = 0 ∨ (m.configs.lookup id).isNone
  · rw [removeConfig_eq_notFound env m id hc]
  · by_cases he : (configsAfterErase m id).isEmpty
    · by_cases ha : m.current_state.atrace_on
      · rw [removeConfig_eq_teardownAtrace env m id hc he ha]; rfl
      · rw [removeConfig_eq_teardownPlain env m id hc he (by simpa using ha)]; rfl
    · rw [removeConfig_eq_remaining env m id hc (by simpa using he)]; rfl

theorem lookup_filter_ne (l : List (Nat × FtraceConfig)) (id : Nat) :
    (l.filter (fun p => p.1 ≠ id)).lookup id = none := by
  induction l with
  | nil => rfl
  | cons p t ih =>
    obtain ⟨k, v⟩ := p
    by_cases hp : k = id
    · rw [List.filter_cons, if_neg (by simp [hp])]
      exact ih
    · rw [List.filter_cons, if_pos (by simp [hp])]
      simp only [List.lookup]
      rw [show (id == k) = false by simp [Ne.symm hp]]
      exact ih

/-! ### C4 — buffer sizing policy -/

/-- C4: `ComputeCpuBufferSizeInPages` returns ≥ 1 for every input; 0 and
inputs above the 2048 KB ceiling both yield the 512 KB default converted
to pages; any other input yields the requested KB over the page size in
KB, with a zero quotient rounded up to one page; and the result
expressed in KB never exceeds the ceiling. -/
theorem computeCpuBufferSize_policy (n : Nat) :
    1 ≤ ComputeCpuBufferSizeInPages n
    ∧ (n = 0 → ComputeCpuBufferSizeInPages n
        = kDefaultPerCpuBufferSizeKb / (kPageSize / 1024))
    ∧ (kMaxPerCpuBufferSizeKb < n → ComputeCpuBufferSizeInPages n
        = kDefaultPerCpuBufferSizeKb / (kPageSize / 1024))
    ∧ (0 < n → n ≤ kMaxPerCpuBufferSizeKb → ComputeCpuBufferSizeInPages n
        = if n / (kPageSize / 1024) = 0 then 1 else n / (kPageSize / 1024))
    ∧ ComputeCpuBufferSizeInPages n * (kPageSize / 1024) ≤ kMaxPerCpuBufferSizeKb := by
  refine ⟨?_, ?_, ?_, ?_, ?_⟩
  · simp only [ComputeCpuBufferSizeInPages, kDefaultPerCpuBufferSizeKb,
      kMaxPerCpuBufferSizeKb, kPageSize]
    norm_num
    split_ifs <;> try contradiction
    all_goals omega
  · intro h
    subst h
    decide
  · intro h
    simp only [ComputeCpuBufferSizeInPages, kDefaultPerCpuBufferSizeKb,
      kMaxPerCpuBufferSizeKb, kPageSize] at h ⊢
    norm_num at h ⊢
    split_ifs <;> try contradiction
    all_goals omega
  · intro h1 h2
    simp only [ComputeCpuBufferSizeInPages, kDefaultPerCpuBufferSizeKb,
      kMaxPerCpuBufferSizeKb, kPageSize] at h2 ⊢
    norm_num at h2 ⊢
    split_ifs <;> try contradiction
    all_goals omega
  · simp only [ComputeCpuBufferSizeInPages, kDefaultPerCpuBufferSizeKb,
      kMaxPerCpuBufferSizeKb, kPageSize]
    norm_num
    split_ifs <;> try contradiction
    all_goals omega

/-- Witness for C4 at the in-range input 1000 KB (250 pages) and the
above-ceiling input 8192 KB (default, 128 pages). -/
theorem computeCpuBufferSize_policy_witness :
    (0 < 1000 ∧ 1000 ≤ kMaxPerCpuBufferSizeKb
      ∧ ComputeCpuBufferSizeInPages 1000 = 250)
    ∧ (kMaxPerCpuBufferSizeKb < 8192
      ∧ ComputeCpuBufferSizeInPages 8192 = 128) := by
  refine ⟨⟨by decide, by decide, ?_⟩, by decide, ?_⟩
  · have h := (computeCpuBufferSize_policy 1000).2.2.2.1 (by decide) (by decide)
    simpa using h
  · have h := (computeCpuBufferSize_policy 8192).2.2.1 (by decide)
    simpa using h

/-! ### C3 — RequestConfig rejection -/

/-- C3: `RequestConfig` returns 0 exactly in the two rejection
situations — empty config table with tracing already on (foreign
owner), and non-empty table with tracing turned off behind the muxer's
back — and a rejection mutates nothing and issues no control-surface
calls. -/
theorem requestConfig_rejection_exact (env : Env) (m : Muxer)
    (request : FtraceConfig) :
    ((RequestConfig env m request).1 = 0 ↔
      ((m.configs.isEmpty = true ∧ env.is_tracing_enabled = true) ∨
       (m.configs.isEmpty = false ∧ env.is_tracing_enabled = false)))
    ∧ ((RequestConfig env m request).1 = 0 →
        RequestConfig env m request = (0, m, [])) := by
  by_cases h1 : m.configs.isEmpty <;> by_cases h2 : env.is_tracing_enabled
  · rw [requestConfig_eq_rejectCold env m request h1 h2]
    exact ⟨iff_of_true rfl (Or.inl ⟨h1, h2⟩), fun _ => rfl⟩
  · rw [requestConfig_eq_cold env m request h1 (by simpa using h2)]
    constructor
    · refine iff_of_false (by simp [coldResult]) ?_
      rintro (⟨-, hb⟩ | ⟨ha, -⟩)
      · exact h2 hb
      · rw [h1] at ha; cases ha
    · intro h; simp [coldResult] at h
  · rw [requestConfig_eq_warm env m request (by simpa using h1) h2]
    constructor
    · refine iff_of_false (by simp [warmResult]) ?_
      rintro (⟨ha, -⟩ | ⟨-, hb⟩)
      · exact h1 (by simp [ha])
      · rw [h2] at hb; cases hb
    · intro h; simp [warmResult] at h
  · rw [requestConfig_eq_rejectWarm env m request (by simpa using h1) (by simpa using h2)]
    exact ⟨iff_of_true rfl (Or.inr ⟨by simpa using h1, by simpa using h2⟩), fun _ => rfl⟩

/-- Witness for C3: a cold start against a foreign owner is rejected
with no mutation, and a successful cold start returns a non-zero id. -/
theorem requestConfig_rejection_exact_witness :
    RequestConfig env1 (initMuxer table0) cfg0 = (0, initMuxer table0, [])
    ∧ (RequestConfig env0 (initMuxer table0) cfg0).1 = 1 := by
  refine ⟨(requestConfig_rejection_exact env1 (initMuxer table0) cfg0).2 ?_, by decide⟩
  decide

/-! ### C8 — RemoveConfig result -/

/-- C8: `RemoveConfig id` returns false exactly when `id` is 0 or no
config with that id is stored, in which case nothing is mutated and no
control-surface call is made; it returns true exactly when a config
with that id existed, and then the config is gone from the table. -/
theorem removeConfig_result_exact (env : Env) (m : Muxer) (id : Nat) :
    ((RemoveConfig env m id).1 = false ↔
      (id = 0 ∨ (m.configs.lookup id).isNone = true))
    ∧ ((RemoveConfig env m id).1 = false → RemoveConfig env m id = (false, m, []))
    ∧ ((RemoveConfig env m id).1 = true →
        (m.configs.lookup id).isSome = true
        ∧ ((RemoveConfig env m id).2.1.configs.lookup id) = none) := by
  by_cases hc : id = 0 ∨ (m.configs.lookup id).isNone
  · rw [removeConfig_eq_notFound env m id hc]
    refine ⟨iff_of_true rfl (by simpa using hc), fun _ => rfl, ?_⟩
    intro h; simp at h
  · have hsome : (m.configs.lookup id).isSome = true := by
      cases hopt : m.configs.lookup id with
      | none => exact absurd (Or.inr (by simp [hopt])) hc
      | some v => simp
    have hcc : ¬(id = 0 ∨ (m.configs.lookup id).isNone = true) := by simpa using hc
    by_cases he : (configsAfterErase m id).isEmpty
    · by_cases ha : m.current_state.atrace_on
      · rw [removeConfig_eq_teardownAtrace env m id hc he ha]
        refine ⟨iff_of_false (by simp [removeTeardownAtrace]) hcc, ?_, ?_⟩
        · intro h; simp [removeTeardownAtrace] at h
        · intro _
          exact ⟨hsome, by
            simp only [removeTeardownAtrace, configsAfterErase]
            exact lookup_filter_ne m.configs id⟩
      · rw [removeConfig_eq_teardownPlain env m id hc he (by simpa using ha)]
        refine ⟨iff_of_false (by simp [removeTeardownPlain]) hcc, ?_, ?_⟩
        · intro h; simp [removeTeardownPlain] at h
        · intro _
          exact ⟨hsome, by
            simp only [removeTeardownPlain, configsAfterErase]
            exact lookup_filter_ne m.configs id⟩
    · rw [removeConfig_eq_remaining env m id hc (by simpa using he)]
      refine ⟨iff_of_false (by simp [removePartial]) hcc, ?_, ?_⟩
      · intro h; simp [removePartial] at h
      · intro _
        exact ⟨hsome, by
          simp only [removePartial, configsAfterErase]
          exact lookup_filter_ne m.configs id⟩

/-- Witness for C8: removing an unknown id mutates nothing; removing an
issued id erases it from the table. -/
theorem removeConfig_result_exact_witness :
    RemoveConfig env1 warmMuxer 5 = (false, warmMuxer, [])
    ∧ ((RemoveConfig env1 warmMuxer 1).2.1.configs.lookup 1) = none := by
  constructor
  · exact (removeConfig_result_exact env1 warmMuxer 5).2.1 (by decide)
  · exact ((removeConfig_result_exact env1 warmMuxer 1).2.2 (by decide)).2

/-! ### C6 — clock selection -/

theorem setupClockLoop_spec (current : String) (clocks : Finset String)
    (l : List String) :
    (l.find? (fun c => decide (c ∈ clocks)) = none →
      setupClockLoop current clocks l = [])
    ∧ (∀ c, l.find? (fun c => decide (c ∈ clocks)) = some c →
        ((current = c → setupClockLoop current clocks l = [])
         ∧ (current ≠ c → setupClockLoop current clocks l = [Effect.setClock c]))) := by
  induction l with
  | nil => exact ⟨fun _ => rfl, fun c h => by cases h⟩
  | cons a rest ih =>
    by_cases hm : a ∈ clocks
    · constructor
      · intro h
        rw [List.find?_cons_of_pos _ (by simpa using hm)] at h
        cases h
      · intro c hc
        rw [List.find?_cons_of_pos _ (by simpa using hm)] at hc
        injection hc with hac
        subst hac
        constructor
        · intro hcur
          simp only [setupClockLoop]
          rw [if_neg (not_not_intro hm), if_pos hcur]
        · intro hcur
          simp only [setupClockLoop]
          rw [if_neg (not_not_intro hm), if_neg hcur]
    · have hskip : setupClockLoop current clocks (a :: rest)
        = setupClockLoop current clocks rest := by
        simp only [setupClockLoop]
        rw [if_pos hm]
      rw [hskip, List.find?_cons_of_neg _ (by simpa using hm)]
      exact ih

/-- C6: `SetupClock` scans `["boot", "global", "local"]` in order; the
first preferred clock present in the available set is the target; if
the target equals the current clock no `SetClock` call is made;
otherwise exactly one `SetClock` call with the target is made and the
scan stops; if no preferred clock is available, `SetClock` is never
called. -/
theorem setupClock_scan (env : Env) :
    (kClocks.find? (fun c => decide (c ∈ env.available_clocks)) = none →
      SetupClock env = [])
    ∧ (∀ c, kClocks.find? (fun c => decide (c ∈ env.available_clocks)) = some c →
        ((env.get_clock = c → SetupClock env = [])
         ∧ (env.get_clock ≠ c → SetupClock env = [Effect.setClock c]))) :=
  setupClockLoop_spec env.get_clock env.available_clocks kClocks

/-- Witness for C6: with clocks {boot, local} available and `local`
current, the scan writes `boot` exactly once. -/
theorem setupClock_scan_witness :
    SetupClock env0 = [Effect.setClock "boot"] :=
  ((setupClock_scan env0).2 "boot" (by decide)).2 (by decide)

/-! ### C7 — atrace argv and effective event set -/

theorem foldl_insert_toFinset (l : List String) (s : Finset String) :
    l.foldl (fun s n => insert n s) s = s ∪ l.toFinset := by
  induction l generalizing s with
  | nil => simp
  | cons a t ih =>
    rw [List.foldl_cons, ih]
    ext x
    simp only [Finset.mem_union, Finset.mem_insert, List.mem_toFinset,
      List.mem_cons]
    tauto

theorem getFtraceEvents_eq (request : FtraceConfig) :
    GetFtraceEvents request = request.event_names.toFinset ∪
      (if RequiresAtrace request then {"print"} else ∅) := by
  unfold GetFtraceEvents
  by_cases h : RequiresAtrace request
  · rw [foldl_insert_toFinset, if_pos h, if_pos h]
    ext x
    simp only [Finset.mem_insert, Finset.empty_union, Finset.mem_union,
      List.mem_toFinset, Finset.mem_singleton]
    tauto
  · rw [foldl_insert_toFinset, if_neg h, if_neg h]
    rw [Finset.empty_union, Finset.union_empty]

theorem atraceStartArgs_eq (request : FtraceConfig) :
    atraceStartArgs request = ["atrace", "--async_start"]
      ++ request.atrace_categories
      ++ (if request.atrace_apps = [] then [] else "-a" :: request.atrace_apps) := by
  simp only [atraceStartArgs]
  by_cases h : request.atrace_apps = []
  · rw [if_pos (show request.atrace_apps.isEmpty = true by simp [h]), if_pos h]
    simp
  · rw [if_neg (show ¬request.atrace_apps.isEmpty = true by simp [h]), if_neg h]
    simp

/-- C7: on a cold-start request that requires atrace, the helper is run
with argv `["atrace", "--async_start", categories...]` followed by
`["-a", apps...]` iff `atrace_apps` is non-empty; and the effective
event set of any request is its `event_names` plus `"print"` iff the
request requires atrace. -/
theorem requestConfig_atrace_cold (env : Env) (m : Muxer)
    (request : FtraceConfig) :
    (m.configs.isEmpty = true → env.is_tracing_enabled = false →
      RequiresAtrace request = true →
      Effect.runAtrace (["atrace", "--async_start"] ++ request.atrace_categories
        ++ (if request.atrace_apps = [] then [] else "-a" :: request.atrace_apps))
        ∈ (RequestConfig env m request).2.2)
    ∧ GetFtraceEvents request = request.event_names.toFinset ∪
        (if RequiresAtrace request then {"print"} else ∅) := by
  refine ⟨?_, getFtraceEvents_eq request⟩
  intro h1 h2 hr
  rw [requestConfig_eq_cold env m request h1 h2]
  simp only [coldResult, hr, if_true]
  rw [← atraceStartArgs_eq]
  simp

/-- Witness for C7: a cold-start request with category `gfx` and app
`com.app` runs `["atrace", "--async_start", "gfx", "-a", "com.app"]`. -/
theorem requestConfig_atrace_cold_witness :
    Effect.runAtrace ["atrace", "--async_start", "gfx", "-a", "com.app"]
      ∈ (RequestConfig env0 (initMuxer table0) cfgAtrace).2.2 := by
  have h := (requestConfig_atrace_cold env0 (initMuxer table0) cfgAtrace).1
    rfl rfl rfl
  simpa using h

/-! ### C10 — warm-branch frame conditions -/

theorem eventLoop_effects_shape (table : String → Option Event) (env : Env)
    (l : List String) (fe : Finset String) :
    ∀ eff ∈ (eventLoop table env fe l).2.2,
      ∃ g n b, eff = Effect.enableEvent g n b := by
  induction l generalizing fe with
  | nil => intro eff h; cases h
  | cons a rest ih =>
    intro eff h
    cases htab : table a with
    | none =>
      rw [show eventLoop table env fe (a :: rest) = eventLoop table env fe rest by
        simp only [eventLoop, htab]] at h
      exact ih fe eff h
    | some event =>
      by_cases hmem : a ∈ fe ∨ event.group = "ftrace"
      · simp only [eventLoop, htab, if_pos hmem] at h
        exact ih fe eff h
      · by_cases hen : env.enable_event event.group event.name
        · simp only [eventLoop, htab, if_neg hmem, if_pos hen, List.mem_cons] at h
          rcases h with h | h
          · exact ⟨event.group, event.name, true, h⟩
          · exact ih (insert a fe) eff h
        · simp only [eventLoop, htab, if_neg hmem,
            if_neg hen, List.mem_cons] at h
          rcases h with h | h
          · exact ⟨event.group, event.name, false, h⟩
          · exact ih fe eff h

/-- C10: a `RequestConfig` call made while the config table is
non-empty issues only `EnableEvent` calls (so never `SetClock`,
`SetCpuBufferSizeInPages` or the atrace helper) and leaves
`cpu_buffer_size_pages` and `atrace_on` unchanged — even if the request
carries a buffer size or atrace demand; the atrace demand only forces
`"print"` into the effective event set. -/
theorem requestConfig_warm_frame (env : Env) (m : Muxer)
    (request : FtraceConfig) (h1 : m.configs.isEmpty = false) :
    (RequestConfig env m request).2.1.current_state.cpu_buffer_size_pages
      = m.current_state.cpu_buffer_size_pages
    ∧ (RequestConfig env m request).2.1.current_state.atrace_on
      = m.current_state.atrace_on
    ∧ (∀ eff ∈ (RequestConfig env m request).2.2,
        ∃ g n b, eff = Effect.enableEvent g n b)
    ∧ GetFtraceEvents request = request.event_names.toFinset ∪
        (if RequiresAtrace request then {"print"} else ∅) := by
  by_cases h2 : env.is_tracing_enabled
  · rw [requestConfig_eq_warm env m request h1 h2]
    refine ⟨rfl, rfl, ?_, getFtraceEvents_eq request⟩
    intro eff h
    exact eventLoop_effects_shape m.table env (requestEventList request)
      m.current_state.ftrace_events eff h
  · rw [requestConfig_eq_rejectWarm env m request h1 (by simpa using h2)]
    refine ⟨rfl, rfl, ?_, getFtraceEvents_eq request⟩
    intro eff h
    cases h

/-- Witness for C10: a warm request carrying an atrace demand leaves
the buffer-page shadow and the atrace flag unchanged. -/
theorem requestConfig_warm_frame_witness :
    (RequestConfig env1 warmMuxer cfgAtrace).2.1.current_state.cpu_buffer_size_pages
      = warmMuxer.current_state.cpu_buffer_size_pages
    ∧ (RequestConfig env1 warmMuxer cfgAtrace).2.1.current_state.atrace_on
      = warmMuxer.current_state.atrace_on := by
  have h := requestConfig_warm_frame env1 warmMuxer cfgAtrace (by decide)
  exact ⟨h.1, h.2.1⟩

/-! ### C9 — the DisableAtrace assertion -/

/-- C9 (refutation): at the concrete reachable state after one accepted
atrace request, `RemoveConfig 1` tears down and invokes `DisableAtrace`
(the stop argv is issued), yet the condition asserted by
`PERFETTO_DCHECK(!current_state_.atrace_on)` at `DisableAtrace` entry
is false: `atrace_on` is necessarily true on every reachable invocation
(the call is guarded by `if (current_state_.atrace_on)`), so the
assertion fails rather than holds. -/
theorem disableAtrace_dcheck_violated :
    atraceMuxer.current_state.atrace_on = true
    ∧ removeConfigInvokesDisableAtrace atraceMuxer 1 = true
    ∧ disableAtraceDcheckHolds atraceMuxer.current_state = false
    ∧ Effect.runAtrace ["atrace", "--async_stop"]
        ∈ (RemoveConfig env1 atraceMuxer 1).2.2 := by decide

/-! ### C5 — id monotonicity -/

theorem requestConfig_id_last (env : Env) (m : Muxer) (request : FtraceConfig) :
    RequestConfig env m request = (0, m, [])
    ∨ ((RequestConfig env m request).1 = m.last_id + 1
        ∧ (RequestConfig env m request).2.1.last_id = m.last_id + 1) := by
  by_cases h1 : m.configs.isEmpty <;> by_cases h2 : env.is_tracing_enabled
  · exact Or.inl (requestConfig_eq_rejectCold env m request h1 h2)
  · right
    rw [requestConfig_eq_cold env m request h1 (by simpa using h2)]
    exact ⟨rfl, rfl⟩
  · right
    rw [requestConfig_eq_warm env m request (by simpa using h1) h2]
    exact ⟨rfl, rfl⟩
  · exact Or.inl (requestConfig_eq_rejectWarm env m request (by simpa using h1)
      (by simpa using h2))

theorem runTrace_ids_mono (m : Muxer) (cmds : List Cmd) :
    List.Pairwise (· < ·) (runTrace m cmds).2.2
    ∧ ∀ i ∈ (runTrace m cmds).2.2, m.last_id < i := by
  induction cmds generalizing m with
  | nil => exact ⟨List.Pairwise.nil, fun i h => absurd h (List.not_mem_nil i)⟩
  | cons c cs ih =>
    cases c with
    | request env req =>
      rcases requestConfig_id_last env m req with h | ⟨hid, hlast⟩
      · have hids : (runTrace m (Cmd.request env req :: cs)).2.2
            = (runTrace m cs).2.2 := by
          simp [runTrace, stepCmd, h]
        rw [hids]
        exact ih m
      · have hids : (runTrace m (Cmd.request env req :: cs)).2.2
            = (m.last_id + 1) :: (runTrace (RequestConfig env m req).2.1 cs).2.2 := by
          simp [runTrace, stepCmd, hid]
        obtain ⟨ihp, ihb⟩ := ih (RequestConfig env m req).2.1
        rw [hids]
        constructor
        · apply List.Pairwise.cons
          · intro i hi
            have hgt := ihb i hi
            rw [hlast] at hgt
            omega
          · exact ihp
        · intro i hi
          rcases List.mem_cons.mp hi with rfl | hi
          · omega
          · have hgt := ihb i hi
            rw [hlast] at hgt
            omega
    | remove env id =>
      have hids : (runTrace m (Cmd.remove env id :: cs)).2.2
          = (runTrace (RemoveConfig env m id).2.1 cs).2.2 := by
        simp [runTrace, stepCmd]
      obtain ⟨ihp, ihb⟩ := ih (RemoveConfig env m id).2.1
      rw [hids]
      refine ⟨ihp, fun i hi => ?_⟩
      have hgt := ihb i hi
      rw [removeConfig_last_id] at hgt
      exact hgt

/-- C5: over any interleaving of operations on a fresh muxer, the ids
returned by successful `RequestConfig` calls form a strictly increasing
sequence (`Pairwise (<)`), so no id is ever issued twice and a removed
id — which was issued earlier — is never re-issued. -/
theorem issued_ids_strictly_increasing (table : String → Option Event)
    (cmds : List Cmd) :
    List.Pairwise (· < ·) (runTrace (initMuxer table) cmds).2.2 :=
  (runTrace_ids_mono (initMuxer table) cmds).1

/-! ### Lemmas about the two set-iterating loops -/

theorem eventLoop_mono (table : String → Option Event) (env : Env)
    (l : List String) (fe : Finset String) :
    ∀ n ∈ fe, n ∈ (eventLoop table env fe l).1 := by
  induction l generalizing fe with
  | nil => intro n h; exact h
  | cons a rest ih =>
    intro n h
    cases htab : table a with
    | none =>
      simp only [eventLoop, htab]
      exact ih fe n h
    | some event =>
      by_cases hmem : a ∈ fe ∨ event.group = "ftrace"
      · simp only [eventLoop, htab, if_pos hmem]
        exact ih fe n h
      · by_cases hen : env.enable_event event.group event.name
        · simp only [eventLoop, htab, if_neg hmem, if_pos hen]
          exact ih (insert a fe) n (Finset.mem_insert_of_mem h)
        · simp only [eventLoop, htab, if_neg hmem, if_neg hen]
          exact ih fe n h

theorem eventLoop_known (table : String → Option Event) (env : Env)
    (l : List String) (fe : Finset String)
    (hk : ∀ n ∈ fe, (table n).isSome = true) :
    ∀ n ∈ (eventLoop table env fe l).1, (table n).isSome = true := by
  induction l generalizing fe with
  | nil => exact hk
  | cons a rest ih =>
    cases htab : table a with
    | none =>
      simp only [eventLoop, htab]
      exact ih fe hk
    | some event =>
      by_cases hmem : a ∈ fe ∨ event.group = "ftrace"
      · simp only [eventLoop, htab, if_pos hmem]
        exact ih fe hk
      · by_cases hen : env.enable_event event.group event.name
        · simp only [eventLoop, htab, if_neg hmem, if_pos hen]
          refine ih (insert a fe) ?_
          intro n hn
          rcases Finset.mem_insert.mp hn with rfl | hn
          · simp [htab]
          · exact hk n hn
        · simp only [eventLoop, htab, if_neg hmem, if_neg hen]
          exact ih fe hk

theorem eventLoop_accepted (table : String → Option Event) (env : Env)
    (l : List String) (fe : Finset String) :
    ∀ n ∈ (eventLoop table env fe l).2.1,
      ∃ e, table n = some e
        ∧ (e.group = "ftrace" ∨ n ∈ (eventLoop table env fe l).1) := by
  induction l generalizing fe with
  | nil => intro n h; cases h
  | cons a rest ih =>
    intro n h
    cases htab : table a with
    | none =>
      simp only [eventLoop, htab] at h ⊢
      exact ih fe n h
    | some event =>
      by_cases hmem : a ∈ fe ∨ event.group = "ftrace"
      · simp only [eventLoop, htab, if_pos hmem, List.mem_cons] at h ⊢
        rcases h with rfl | h
        · rcases hmem with hmem | hmem
          · exact ⟨event, htab, Or.inr (eventLoop_mono table env rest fe n hmem)⟩
          · exact ⟨event, htab, Or.inl hmem⟩
        · exact ih fe n h
      · by_cases hen : env.enable_event event.group event.name
        · simp only [eventLoop, htab, if_neg hmem, if_pos hen, List.mem_cons] at h ⊢
          rcases h with rfl | h
          · exact ⟨event, htab, Or.inr
              (eventLoop_mono table env rest _ n (Finset.mem_insert_self n _))⟩
          · exact ih (insert a fe) n h
        · simp only [eventLoop, htab, if_neg hmem, if_neg hen] at h ⊢
          exact ih fe n h

theorem eventLoop_enabled (table : String → Option Event) (env : Env)
    (l : List String) (fe : Finset String) :
    ∀ n ∈ (eventLoop table env fe l).1,
      n ∈ fe ∨ ∃ e, table n = some e
        ∧ Effect.enableEvent e.group e.name true ∈ (eventLoop table env fe l).2.2 := by
  induction l generalizing fe with
  | nil => intro n h; exact Or.inl h
  | cons a rest ih =>
    intro n h
    cases htab : table a with
    | none =>
      simp only [eventLoop, htab] at h ⊢
      exact ih fe n h
    | some event =>
      by_cases hmem : a ∈ fe ∨ event.group = "ftrace"
      · simp only [eventLoop, htab, if_pos hmem] at h ⊢
        exact ih fe n h
      · by_cases hen : env.enable_event event.group event.name
        · simp only [eventLoop, htab, if_neg hmem, if_pos hen, List.mem_cons] at h ⊢
          rcases ih (insert a fe) n h with hin | ⟨e, he, hmem2⟩
          · rcases Finset.mem_insert.mp hin with rfl | hin
            · exact Or.inr ⟨event, htab, Or.inl rfl⟩
            · exact Or.inl hin
          · exact Or.inr ⟨e, he, Or.inr hmem2⟩
        · simp only [eventLoop, htab, if_neg hmem, if_neg hen, List.mem_cons] at h ⊢
          rcases ih fe n h with hin | ⟨e, he, hmem2⟩
          · exact Or.inl hin
          · exact Or.inr ⟨e, he, Or.inr hmem2⟩

theorem disableLoop_subset (table : String → Option Event) (env : Env)
    (l : List String) (fe : Finset String) :
    ∀ n ∈ (disableLoop table env fe l).1, n ∈ fe := by
  induction l generalizing fe with
  | nil => intro n h; exact h
  | cons a rest ih =>
    intro n h
    cases htab : table a with
    | none =>
      simp only [disableLoop, htab] at h
      exact ih fe n h
    | some event =>
      by_cases hdis : env.disable_event event.group event.name
      · simp only [disableLoop, htab, if_pos hdis] at h
        exact Finset.mem_of_mem_erase (ih (fe.erase a) n h)
      · simp only [disableLoop, htab, if_neg hdis] at h
        exact ih fe n h

theorem disableLoop_keep (table : String → Option Event) (env : Env)
    (l : List String) (fe : Finset String) (n : String)
    (hin : n ∈ fe) (hout : n ∉ l) :
    n ∈ (disableLoop table env fe l).1 := by
  induction l generalizing fe with
  | nil => exact hin
  | cons a rest ih =>
    have hna : n ≠ a := fun h => hout (h ▸ List.mem_cons_self a rest)
    have hrest : n ∉ rest := fun h => hout (List.mem_cons_of_mem a h)
    cases htab : table a with
    | none =>
      simp only [disableLoop, htab]
      exact ih fe hin hrest
    | some event =>
      by_cases hdis : env.disable_event event.group event.name
      · simp only [disableLoop, htab, if_pos hdis]
        exact ih (fe.erase a) (Finset.mem_erase.mpr ⟨hna, hin⟩) hrest
      · simp only [disableLoop, htab, if_neg hdis]
        exact ih fe hin hrest

theorem disableLoop_exact (table : String → Option Event) (env : Env)
    (l : List String) (fe : Finset String)
    (hk : ∀ x ∈ l, (table x).isSome = true)
    (hd : ∀ g n, env.disable_event g n = true) :
    (disableLoop table env fe l).1 = fe \ l.toFinset := by
  induction l generalizing fe with
  | nil => simp [disableLoop]
  | cons a rest ih =>
    obtain ⟨event, htab⟩ := Option.isSome_iff_exists.mp (hk a (List.mem_cons_self a rest))
    simp only [disableLoop, htab, if_pos (hd event.group event.name)]
    rw [ih (fe.erase a) (fun x hx => hk x (List.mem_cons_of_mem a hx))]
    ext x
    simp only [Finset.mem_sdiff, Finset.mem_erase, List.toFinset_cons,
      Finset.mem_insert, List.mem_toFinset]
    tauto

/-! ### C1 — balanced interleavings and teardown -/

theorem requestConfig_table (env : Env) (m : Muxer) (req : FtraceConfig) :
    (RequestConfig env m req).2.1.table = m.table := by
  by_cases h1 : m.configs.isEmpty <;> by_cases h2 : env.is_tracing_enabled
  · rw [requestConfig_eq_rejectCold env m req h1 h2]
  · rw [requestConfig_eq_cold env m req h1 (by simpa using h2)]; rfl
  · rw [requestConfig_eq_warm env m req (by simpa using h1) h2]; rfl
  · rw [requestConfig_eq_rejectWarm env m req (by simpa using h1) (by simpa using h2)]

/-- Environments under which a trace is run with a well-behaved kernel
on the disable side: every `DisableEvent` call a `RemoveConfig` makes
succeeds.  (`RequestConfig` commands are unconstrained.) -/
def goodCmd : Cmd → Prop
  | Cmd.request _ _ => True
  | Cmd.remove env _ => ∀ g n, env.disable_event g n = true

/-- The state invariant behind C1: when the config table is empty the
shadow state is clean (no events, tracing and atrace off), and every
shadow event is known to the catalog (it was looked up when enabled). -/
def MuxerInv (m : Muxer) : Prop :=
  (m.configs = [] → m.current_state.ftrace_events = ∅
    ∧ m.current_state.tracing_on = false
    ∧ m.current_state.atrace_on = false)
  ∧ ∀ n ∈ m.current_state.ftrace_events, (m.table n).isSome = true

theorem requestConfig_muxerInv (env : Env) (m : Muxer) (req : FtraceConfig)
    (hm : MuxerInv m) : MuxerInv (RequestConfig env m req).2.1 := by
  by_cases h1 : m.configs.isEmpty <;> by_cases h2 : env.is_tracing_enabled
  · rw [requestConfig_eq_rejectCold env m req h1 h2]; exact hm
  · rw [requestConfig_eq_cold env m req h1 (by simpa using h2)]
    constructor
    · intro hc; simp [coldResult] at hc
    · intro n hn
      exact eventLoop_known m.table env (requestEventList req)
        m.current_state.ftrace_events hm.2 n hn
  · rw [requestConfig_eq_warm env m req (by simpa using h1) h2]
    constructor
    · intro hc; simp [warmResult] at hc
    · intro n hn
      exact eventLoop_known m.table env (requestEventList req)
        m.current_state.ftrace_events hm.2 n hn
  · rw [requestConfig_eq_rejectWarm env m req (by simpa using h1) (by simpa using h2)]
    exact hm

theorem removeLoop_teardown_empty (env : Env) (m : Muxer) (id : Nat)
    (he : (configsAfterErase m id).isEmpty = true)
    (hk : ∀ n ∈ m.current_state.ftrace_events, (m.table n).isSome = true)
    (hd : ∀ g n, env.disable_event g n = true) :
    (removeLoop env m id).1 = ∅ := by
  have hconf : configsAfterErase m id = [] := List.isEmpty_iff.mp he
  have hTo : removeToDisable m id = finsetSort m.current_state.ftrace_events := by
    rw [removeToDisable, hconf]
    simp [acceptedUnion]
  rw [removeLoop, hTo,
    disableLoop_exact m.table env (finsetSort m.current_state.ftrace_events)
      m.current_state.ftrace_events
      (fun x hx => hk x ((mem_finsetSort _ _).mp hx)) hd,
    finsetSort_toFinset, Finset.sdiff_self]

theorem removeConfig_muxerInv (env : Env) (m : Muxer) (id : Nat)
    (hd : ∀ g n, env.disable_event g n = true)
    (hm : MuxerInv m) : MuxerInv (RemoveConfig env m id).2.1 := by
  by_cases hc : id = 0 ∨ (m.configs.lookup id).isNone
  · rw [removeConfig_eq_notFound env m id hc]; exact hm
  · by_cases he : (configsAfterErase m id).isEmpty
    · have hfe : (removeLoop env m id).1 = ∅ :=
        removeLoop_teardown_empty env m id he hm.2 hd
      by_cases ha : m.current_state.atrace_on
      · rw [removeConfig_eq_teardownAtrace env m id hc he ha]
        refine ⟨fun _ => ⟨hfe, rfl, rfl⟩, ?_⟩
        intro n hn
        rw [show (removeTeardownAtrace env m id).2.1.current_state.ftrace_events
          = (removeLoop env m id).1 from rfl, hfe] at hn
        cases hn
      · have ha' : m.current_state.atrace_on = false := by simpa using ha
        rw [removeConfig_eq_teardownPlain env m id hc he ha']
        refine ⟨fun _ => ⟨hfe, rfl, ha'⟩, ?_⟩
        intro n hn
        rw [show (removeTeardownPlain env m id).2.1.current_state.ftrace_events
          = (removeLoop env m id).1 from rfl, hfe] at hn
        cases hn
    · rw [removeConfig_eq_remaining env m id hc (by simpa using he)]
      constructor
      · intro hconf
        rw [show (removePartial env m id).2.1.configs = configsAfterErase m id
          from rfl] at hconf
        rw [hconf] at he
        simp at he
      · intro n hn
        exact hm.2 n (disableLoop_subset m.table env (removeToDisable m id)
          m.current_state.ftrace_events n hn)

theorem runTrace_muxerInv (cmds : List Cmd) :
    ∀ m : Muxer, (∀ c ∈ cmds, goodCmd c) → MuxerInv m →
      MuxerInv (runTrace m cmds).1 := by
  induction cmds with
  | nil => intro m _ hm; exact hm
  | cons c cs ih =>
    intro m hgood hm
    have hcs : ∀ x ∈ cs, goodCmd x :=
      fun x hx => hgood x (List.mem_cons_of_mem c hx)
    cases c with
    | request env req =>
      exact ih (RequestConfig env m req).2.1 hcs
        (requestConfig_muxerInv env m req hm)
    | remove env id =>
      have hg : goodCmd (Cmd.remove env id) := hgood _ (List.mem_cons_self _ _)
      exact ih (RemoveConfig env m id).2.1 hcs
        (removeConfig_muxerInv env m id hg hm)

/-- C1 (amended): for every finite interleaving of `RequestConfig` /
`RemoveConfig` on a fresh muxer in which every `DisableEvent` call the
kernel receives succeeds, if every successfully issued id was removed
(the final config table is empty), the final state has `ftrace_events`
empty, `tracing_on` false and `atrace_on` false.  The original claim's
requirement that `cpu_buffer_size_pages` also return to 0 fails — see
the counterexample: teardown writes 0 only to the kernel
(`SetCpuBufferSizeInPages(0)`), never to the shadow field. -/
theorem balanced_trace_resets_state (table : String → Option Event)
    (cmds : List Cmd) (hgood : ∀ c ∈ cmds, goodCmd c)
    (hbal : (runTrace (initMuxer table) cmds).1.configs = []) :
    (runTrace (initMuxer table) cmds).1.current_state.ftrace_events = ∅
    ∧ (runTrace (initMuxer table) cmds).1.current_state.tracing_on = false
    ∧ (runTrace (initMuxer table) cmds).1.current_state.atrace_on = false := by
  have h := runTrace_muxerInv cmds (initMuxer table) hgood
    ⟨fun _ => ⟨rfl, rfl, rfl⟩, fun n hn => absurd hn (Finset.not_mem_empty n)⟩
  exact h.1 hbal

/-- Witness for C1 (amended) at the balanced trace `trace2`. -/
theorem balanced_trace_resets_state_witness :
    (runTrace (initMuxer table0) trace2).1.current_state.ftrace_events = ∅
    ∧ (runTrace (initMuxer table0) trace2).1.current_state.tracing_on = false
    ∧ (runTrace (initMuxer table0) trace2).1.current_state.atrace_on = false :=
  balanced_trace_resets_state table0 trace2 (by
    intro c hc
    simp only [trace2, List.mem_cons, List.not_mem_nil, or_false] at hc
    rcases hc with rfl | rfl
    · trivial
    · intro g n; rfl) (by decide)

/-- C1 (counterexample): the balanced trace `trace2` (one accepted
request, id 1, then its removal, against a fully well-behaved kernel)
leaves `cpu_buffer_size_pages = 128` in the shadow state, so the final
`CurrentState` does not equal the initial `Idle` state with its
buffer-pages field of 0. -/
theorem balanced_trace_not_idle_counterexample :
    (runTrace (initMuxer table0) trace2).2.2 = [1]
    ∧ (runTrace (initMuxer table0) trace2).1.configs = []
    ∧ (initMuxer table0).current_state.cpu_buffer_size_pages = 0
    ∧ (runTrace (initMuxer table0) trace2).1.current_state.cpu_buffer_size_pages = 128
    ∧ ¬((runTrace (initMuxer table0) trace2).1.current_state
        = (initMuxer table0).current_state) := by decide

/-! ### C2 — the event-union invariant -/

theorem acceptedUnion_foldl (l : List (Nat × FtraceConfig)) (s : Finset String) :
    l.foldl (fun s p => s ∪ p.2.event_names.toFinset) s
      = s ∪ acceptedUnion l := by
  induction l generalizing s with
  | nil => simp [acceptedUnion]
  | cons p t ih =>
    rw [List.foldl_cons, ih, show acceptedUnion (p :: t)
      = (∅ ∪ p.2.event_names.toFinset) ∪ acceptedUnion t from by
        rw [acceptedUnion, List.foldl_cons, ih]]
    ext x
    simp only [Finset.mem_union, Finset.empty_union]
    tauto

theorem mem_acceptedUnion (l : List (Nat × FtraceConfig)) (n : String) :
    n ∈ acceptedUnion l ↔ ∃ p, p ∈ l ∧ n ∈ p.2.event_names := by
  induction l with
  | nil => simp [acceptedUnion]
  | cons p t ih =>
    rw [show acceptedUnion (p :: t)
      = (∅ ∪ p.2.event_names.toFinset) ∪ acceptedUnion t from by
        rw [acceptedUnion, List.foldl_cons, acceptedUnion_foldl]]
    simp only [Finset.mem_union, Finset.empty_union, List.mem_toFinset,
      List.mem_cons, ih]
    constructor
    · rintro (h | ⟨q, hq, hn⟩)
      · exact ⟨p, Or.inl rfl, h⟩
      · exact ⟨q, Or.inr hq, hn⟩
    · rintro ⟨q, (rfl | hq), hn⟩
      · exact Or.inl hn
      · exact Or.inr ⟨q, hq, hn⟩

/-- The state/effect invariant behind C2: every accepted event name of
a stored config is known to the catalog and is either in the virtual
`"ftrace"` group or in the shadow event set; and every shadow event was
enabled by a successful `EnableEvent` call this muxer issued. -/
def EventsInv (m : Muxer) (effs : List Effect) : Prop :=
  (∀ n ∈ acceptedUnion m.configs, ∃ e, m.table n = some e
    ∧ (e.group = "ftrace" ∨ n ∈ m.current_state.ftrace_events))
  ∧ ∀ n ∈ m.current_state.ftrace_events, ∃ e, m.table n = some e
      ∧ Effect.enableEvent e.group e.name true ∈ effs

theorem eventsInv_mono (m : Muxer) (effs effs2 : List Effect)
    (hsub : ∀ x ∈ effs, x ∈ effs2) (hm : EventsInv m effs) :
    EventsInv m effs2 :=
  ⟨hm.1, fun n hn => (hm.2 n hn).imp (fun _ he => ⟨he.1, hsub _ he.2⟩)⟩

theorem eventsInv_request_core (env : Env) (m : Muxer) (req : FtraceConfig)
    (effs effsStep : List Effect) (m2 : Muxer)
    (htab : m2.table = m.table)
    (hfe : m2.current_state.ftrace_events = (requestLoop env m req).1)
    (hconf : m2.configs = m.configs
      ++ [(m.last_id + 1, acceptedConfig (requestLoop env m req).2.1)])
    (hstep : ∀ x ∈ (requestLoop env m req).2.2, x ∈ effsStep)
    (hm : EventsInv m effs) :
    EventsInv m2 (effs ++ effsStep) := by
  constructor
  · intro n hn
    rw [hconf, mem_acceptedUnion] at hn
    obtain ⟨p, hp, hnp⟩ := hn
    rcases List.mem_append.mp hp with hp | hp
    · obtain ⟨e, he, hor⟩ := hm.1 n ((mem_acceptedUnion _ _).mpr ⟨p, hp, hnp⟩)
      refine ⟨e, by rw [htab]; exact he, ?_⟩
      rcases hor with hg | hin
      · exact Or.inl hg
      · exact Or.inr (by
          rw [hfe]
          exact eventLoop_mono m.table env (requestEventList req)
            m.current_state.ftrace_events n hin)
    · rw [List.mem_singleton] at hp
      subst hp
      obtain ⟨e, he, hor⟩ := eventLoop_accepted m.table env (requestEventList req)
        m.current_state.ftrace_events n hnp
      refine ⟨e, by rw [htab]; exact he, ?_⟩
      rcases hor with hg | hin
      · exact Or.inl hg
      · exact Or.inr (by rw [hfe]; exact hin)
  · intro n hn
    rw [hfe] at hn
    rcases eventLoop_enabled m.table env (requestEventList req)
        m.current_state.ftrace_events n hn with hold | ⟨e, he, hmem⟩
    · obtain ⟨e, he, hmem⟩ := hm.2 n hold
      exact ⟨e, by rw [htab]; exact he, List.mem_append_left _ hmem⟩
    · exact ⟨e, by rw [htab]; exact he, List.mem_append_right _ (hstep _ hmem)⟩

theorem requestConfig_eventsInv (env : Env) (m : Muxer) (req : FtraceConfig)
    (effs : List Effect) (hm : EventsInv m effs) :
    EventsInv (RequestConfig env m req).2.1
      (effs ++ (RequestConfig env m req).2.2) := by
  by_cases h1 : m.configs.isEmpty <;> by_cases h2 : env.is_tracing_enabled
  · rw [requestConfig_eq_rejectCold env m req h1 h2]
    exact eventsInv_mono m effs _ (fun x hx => List.mem_append_left _ hx) hm
  · rw [requestConfig_eq_cold env m req h1 (by simpa using h2)]
    refine eventsInv_request_core env m req effs (coldResult env m req).2.2
      (coldResult env m req).2.1 rfl rfl rfl ?_ hm
    intro x hx
    simp only [coldResult, List.mem_append]
    tauto
  · rw [requestConfig_eq_warm env m req (by simpa using h1) h2]
    exact eventsInv_request_core env m req effs (warmResult env m req).2.2
      (warmResult env m req).2.1 rfl rfl rfl (fun _ hx => hx) hm
  · rw [requestConfig_eq_rejectWarm env m req (by simpa using h1) (by simpa using h2)]
    exact eventsInv_mono m effs _ (fun x hx => List.mem_append_left _ hx) hm

theorem eventsInv_remove_core (env : Env) (m : Muxer) (id : Nat)
    (m2 : Muxer) (htab : m2.table = m.table)
    (hfe : m2.current_state.ftrace_events = (removeLoop env m id).1)
    (hconf : m2.configs = configsAfterErase m id)
    (effs effsStep : List Effect)
    (hm : EventsInv m effs) : EventsInv m2 (effs ++ effsStep) := by
  constructor
  · intro n hn
    rw [hconf, mem_acceptedUnion] at hn
    obtain ⟨p, hp, hnp⟩ := hn
    have hpold : p ∈ m.configs := List.mem_of_mem_filter hp
    obtain ⟨e, he, hor⟩ := hm.1 n ((mem_acceptedUnion _ _).mpr ⟨p, hpold, hnp⟩)
    refine ⟨e, by rw [htab]; exact he, ?_⟩
    rcases hor with hg | hin
    · exact Or.inl hg
    · refine Or.inr ?_
      rw [hfe]
      refine disableLoop_keep m.table env (removeToDisable m id)
        m.current_state.ftrace_events n hin ?_
      intro hmem
      have hsd := (mem_finsetSort _ _).mp hmem
      rw [Finset.mem_sdiff] at hsd
      exact hsd.2 ((mem_acceptedUnion _ _).mpr ⟨p, hp, hnp⟩)
  · intro n hn
    rw [hfe] at hn
    have hold : n ∈ m.current_state.ftrace_events :=
      disableLoop_subset m.table env (removeToDisable m id)
        m.current_state.ftrace_events n hn
    obtain ⟨e, he, hmem⟩ := hm.2 n hold
    exact ⟨e, by rw [htab]; exact he, List.mem_append_left _ hmem⟩

theorem removeConfig_eventsInv (env : Env) (m : Muxer) (id : Nat)
    (effs : List Effect) (hm : EventsInv m effs) :
    EventsInv (RemoveConfig env m id).2.1
      (effs ++ (RemoveConfig env m id).2.2) := by
  by_cases hc : id = 0 ∨ (m.configs.lookup id).isNone
  · rw [removeConfig_eq_notFound env m id hc]
    exact eventsInv_mono m effs _ (fun x hx => List.mem_append_left _ hx) hm
  · by_cases he : (configsAfterErase m id).isEmpty
    · by_cases ha : m.current_state.atrace_on
      · rw [removeConfig_eq_teardownAtrace env m id hc he ha]
        exact eventsInv_remove_core env m id (removeTeardownAtrace env m id).2.1
          rfl rfl rfl effs _ hm
      · rw [removeConfig_eq_teardownPlain env m id hc he (by simpa using ha)]
        exact eventsInv_remove_core env m id (removeTeardownPlain env m id).2.1
          rfl rfl rfl effs _ hm
    · rw [removeConfig_eq_remaining env m id hc (by simpa using he)]
      exact eventsInv_remove_core env m id (removePartial env m id).2.1
        rfl rfl rfl effs _ hm

theorem runTrace_eventsInv (cmds : List Cmd) :
    ∀ (m : Muxer) (effs : List Effect), EventsInv m effs →
      EventsInv (runTrace m cmds).1 (effs ++ (runTrace m cmds).2.1) := by
  induction cmds with
  | nil => intro m effs hm; simpa [runTrace] using hm
  | cons c cs ih =>
    intro m effs hm
    cases c with
    | request env req =>
      have h2 := ih (RequestConfig env m req).2.1
        (effs ++ (RequestConfig env m req).2.2)
        (requestConfig_eventsInv env m req effs hm)
      simpa [List.append_assoc] using h2
    | remove env id =>
      have h2 := ih (RemoveConfig env m id).2.1
        (effs ++ (RemoveConfig env m id).2.2)
        (removeConfig_eventsInv env m id effs hm)
      simpa [List.append_assoc] using h2

def tracePrint : List Cmd := [Cmd.request env0 cfgPrint]

/-- C2 (amended): between any two external operations, every accepted
event name of a stored config is known to the catalog and is either in
the virtual `"ftrace"` group — such names are accepted but never added
to `ftrace_events` — or is in `ftrace_events`; and every member of
`ftrace_events` was enabled by this muxer, i.e. a successful
`EnableEvent` call for its catalog (group, name) appears in the effect
history.  The original unconditional superset fails on `"ftrace"`-group
events — see the counterexample. -/
theorem events_superset_modulo_ftrace (table : String → Option Event)
    (cmds : List Cmd) :
    (∀ n ∈ acceptedUnion (runTrace (initMuxer table) cmds).1.configs,
      ∃ e, (runTrace (initMuxer table) cmds).1.table n = some e
        ∧ (e.group = "ftrace"
           ∨ n ∈ (runTrace (initMuxer table) cmds).1.current_state.ftrace_events))
    ∧ (∀ n ∈ (runTrace (initMuxer table) cmds).1.current_state.ftrace_events,
      ∃ e, (runTrace (initMuxer table) cmds).1.table n = some e
        ∧ Effect.enableEvent e.group e.name true
            ∈ (runTrace (initMuxer table) cmds).2.1) := by
  have h := runTrace_eventsInv cmds (initMuxer table) []
    ⟨fun n hn => absurd hn (by simp [acceptedUnion, initMuxer]),
     fun n hn => absurd hn (by simp [initMuxer])⟩
  simpa using h

/-- C2 (counterexample): after one accepted request naming `print`
(whose catalog group is the virtual `"ftrace"`), the accepted union
contains `print` but `ftrace_events` is empty, so `ftrace_events` is
not a superset of the union of accepted event names. -/
theorem events_superset_counterexample :
    "print" ∈ acceptedUnion (runTrace (initMuxer table0) tracePrint).1.configs
    ∧ (runTrace (initMuxer table0) tracePrint).1.current_state.ftrace_events = ∅
    ∧ ¬(acceptedUnion (runTrace (initMuxer table0) tracePrint).1.configs
        ⊆ (runTrace (initMuxer table0) tracePrint).1.current_state.ftrace_events) := by
  decide

/-- Witness for C2 (amended) at the `print`-only trace. -/
theorem events_superset_modulo_ftrace_witness :
    ∃ e, (runTrace (initMuxer table0) tracePrint).1.table "print" = some e
      ∧ (e.group = "ftrace"
         ∨ "print" ∈ (runTrace (initMuxer table0) tracePrint).1.current_state.ftrace_events) :=
  (events_superset_modulo_ftrace table0 tracePrint).1 "print" (by decide)

end Perfetto
